import Mathlib

/-!
Verification of the log-analysis pipeline (`assignment_03.py` and
`helpers/log_level_colorize.py`): line parsing, loading, per-level counting,
level filtering, and the level→color mapping.

Strings are modelled as Lean `String`s; the Python string operations used by
the source (`str.split(" ", 3)`, `str.strip()`, `str.upper()`) are embedded
as executable functions over the character list of the string.  `str.upper()`
is modelled for ASCII letters (the only characters the rest of the pipeline
produces or compares), and `str.strip()` strips the ASCII whitespace
characters Python strips.  Exceptions are modelled with `Except String`,
carrying the exact message text the source raises.
-/

/-- One parsed log line, mirroring the dict
`{"date": ..., "time": ..., "log_level": ..., "msg": ...}` built by
`parse_log_line` in `assignment_03.py`. -/
structure LogRecord where
  date : String
  time : String
  log_level : String
  msg : String
deriving Repr, DecidableEq

/-- Prepend a character to the first chunk of a chunk list. -/
def consHead (c : Char) : List (List Char) → List (List Char)
  | [] => [[c]]
  | chunk :: chunks => (c :: chunk) :: chunks

/-- Python `str.split(sep, maxsplit)` with a one-character separator, on
character lists: splits at each occurrence of `sep` scanning left to right,
at most `n` times; once the budget is exhausted the remainder (separators
included) is one final chunk.  Empty chunks are kept, as in Python. -/
def splitLimit (sep : Char) : Nat → List Char → List (List Char)
  | 0, s => [s]
  | _ + 1, [] => [[]]
  | n + 1, c :: rest =>
    if c = sep then [] :: splitLimit sep n rest
    else consHead c (splitLimit sep (n + 1) rest)

/-- Model of `line.split(" ", 3)` from `parse_log_line` (`assignment_03.py`, line 33). -/
def pySplit (line : String) : List String :=
  (splitLimit ' ' 3 line.toList).map String.mk

/-- The message of the `ValueError` raised by `parse_log_line`
(`assignment_03.py`, lines 35-38); a fixed string, independent of the line. -/
def incorrectFormatMsg : String :=
  "Incorrect log line format, expected at least three spaces to separate the components."

/-- Model of `parse_log_line` (`assignment_03.py`, lines 15-39): `line.split(" ", 3)`;
fewer than 4 parts raises `ValueError`; otherwise the four parts are zipped
into the record fields in order. -/
def parse_log_line (line : String) : Except String LogRecord :=
  match pySplit line with
  | [d, t, l, m] => Except.ok ⟨d, t, l, m⟩
  | _ => Except.error incorrectFormatMsg

/-- The ASCII whitespace characters stripped by Python `str.strip()`. -/
def isPyWhitespace (c : Char) : Bool :=
  c = ' ' || c = '\t' || c = '\n' || c = '\x0b' || c = '\x0c' || c = '\r'

/-- Model of `str.strip()` on character lists: drop whitespace from both ends. -/
def stripChars (l : List Char) : List Char :=
  (((l.dropWhile isPyWhitespace).reverse).dropWhile isPyWhitespace).reverse

/-- Python `line.strip()` as used in `load_logs` (`assignment_03.py`, line 58). -/
def pyStrip (s : String) : String :=
  String.mk (stripChars s.toList)

/-- Model of `load_logs` (`assignment_03.py`, lines 42-58), with the opened file
modelled as its list of lines:
`[parse_log_line(line.strip()) for line in file]` — each line is stripped
and parsed in file order, and the first `ValueError` aborts the whole
comprehension, so no partial list is ever produced. -/
def load_logs : List String → Except String (List LogRecord)
  | [] => Except.ok []
  | line :: rest =>
    match parse_log_line (pyStrip line) with
    | Except.error e => Except.error e
    | Except.ok r =>
      match load_logs rest with
      | Except.error e => Except.error e
      | Except.ok rs => Except.ok (r :: rs)

/-- Model of `filter_logs_by_level` (`assignment_03.py`, lines 61-77):
`list(filter(lambda log: log["log_level"] == level, logs))` — compares the
stored level with the argument verbatim, no case folding. -/
def filter_logs_by_level (logs : List LogRecord) (level : String) : List LogRecord :=
  logs.filter (fun log => log.log_level == level)

/-- Python `str.upper()` restricted to ASCII letters (the source only ever
uppercases level tokens such as "error"). -/
def pyUpper (s : String) : String :=
  String.mk (s.toList.map Char.toUpper)

/-- The filtering step of `process_logs` (`assignment_03.py`, lines 199-201):
`level = level.upper()` followed by `filter_logs_by_level(logs_list, level)`.
This is the spec's `byLevel`: only the requested level is uppercased. -/
def process_filter (logs : List LogRecord) (level : String) : List LogRecord :=
  filter_logs_by_level logs (pyUpper level)

/-- One `Counter` update (`collections.Counter`): increment the count of `k`
if present, keeping its position, else append `(k, 1)` at the end — the
insertion-order dict semantics of `dict(Counter(...))`. -/
def counterAdd (k : String) : List (String × Nat) → List (String × Nat)
  | [] => [(k, 1)]
  | (k', n) :: rest =>
    if k' = k then (k', n + 1) :: rest else (k', n) :: counterAdd k rest

/-- Model of `count_logs_by_level` (`assignment_03.py`, lines 80-96):
`dict(Counter([log["log_level"] for log in logs]))`, modelled as an
insertion-ordered association list from level string to count. -/
def count_logs_by_level (logs : List LogRecord) : List (String × Nat) :=
  logs.foldl (fun acc log => counterAdd log.log_level acc) []

/-- Sum of the counts of a level-count mapping. -/
def sumCounts (l : List (String × Nat)) : Nat :=
  (l.map Prod.snd).sum

/-- The observable colors of `helpers/log_level_colorize.py`
(`get_color` wraps the message in the colorama code for the named color;
the color choice is the observable we model). -/
inductive Color where
  | cyan
  | blue
  | red
  | yellow
  | white
deriving Repr, DecidableEq

/-- Model of `log_colors` (`helpers/log_level_colorize.py`, lines 31-37): a dict from
exact level key to color; `"DEFAULT"` maps to white. -/
def log_colors : List (String × Color) :=
  [("INFO", Color.cyan), ("DEBUG", Color.blue), ("ERROR", Color.red),
   ("WARNING", Color.yellow), ("DEFAULT", Color.white)]

/-- Model of `colorize` (`helpers/log_level_colorize.py`, lines 40-53):
`log_colors.get(key, log_colors["DEFAULT"])` — an exact, case-sensitive
dict lookup with white as the fallback. -/
def colorize (key : String) : Color :=
  match log_colors.lookup key with
  | some c => c
  | none => Color.white

deriving instance DecidableEq for Except

/-- Whether `xs` is a leading segment of `ys` (executable, for substring checks). -/
def isPrefixChars : List Char → List Char → Bool
  | [], _ => true
  | _ :: _, [] => false
  | x :: xs, y :: ys => x == y && isPrefixChars xs ys

/-- Whether `xs` occurs contiguously somewhere in `ys` (executable substring check,
used to state that an error message does or does not quote a line). -/
def isInfixChars (xs : List Char) : List Char → Bool
  | [] => isPrefixChars xs []
  | y :: ys => isPrefixChars xs (y :: ys) || isInfixChars xs ys

/-! ### Helper lemmas about `splitLimit` -/

lemma consHead_length (c : Char) (chunk : List Char) (chunks : List (List Char)) :
    (consHead c (chunk :: chunks)).length = (chunk :: chunks).length := rfl

lemma splitLimit_ne_nil (sep : Char) (n : Nat) (l : List Char) :
    splitLimit sep n l ≠ [] := by
  match n, l with
  | 0, s => simp [splitLimit]
  | _ + 1, [] => simp [splitLimit]
  | n + 1, c :: rest =>
    by_cases hc : c = sep
    · simp [splitLimit, hc]
    · simp only [splitLimit, if_neg hc]
      cases hrec : splitLimit sep (n + 1) rest <;> simp [consHead]

lemma splitLimit_length_le (sep : Char) : ∀ (n : Nat) (l : List Char),
    (splitLimit sep n l).length ≤ l.count sep + 1 := by
  intro n l
  induction l generalizing n with
  | nil => cases n <;> simp [splitLimit]
  | cons c rest ih =>
    cases n with
    | zero => simp [splitLimit]
    | succ n =>
      by_cases hc : c = sep
      · subst hc
        have := ih n
        rw [show splitLimit c (n + 1) (c :: rest) = [] :: splitLimit c n rest from by
          simp [splitLimit]]
        simp only [List.length_cons, List.count_cons_self]
        omega
      · have hcount : (c :: rest).count sep = rest.count sep := by
          simp [List.count_cons, hc]
        simp only [splitLimit, if_neg hc, hcount]
        cases hrec : splitLimit sep (n + 1) rest with
        | nil => simp [consHead]
        | cons chunk chunks =>
          have := ih (n + 1)
          rw [hrec] at this
          rw [consHead_length]
          exact this

lemma splitLimit_append (sep : Char) (a : List Char) (ha : sep ∉ a)
    (n : Nat) (rest : List Char) :
    splitLimit sep (n + 1) (a ++ sep :: rest) = a :: splitLimit sep n rest := by
  induction a with
  | nil => simp [splitLimit]
  | cons c a ih =>
    have hc : ¬ c = sep := fun h => ha (h ▸ List.mem_cons_self c a)
    have ha' : sep ∉ a := fun h => ha (List.mem_cons_of_mem c h)
    rw [List.cons_append]
    simp only [splitLimit, if_neg hc, ih ha', consHead]

/-! ### Helper lemmas about parsing and loading -/

lemma parse_error_msg (line : String) (e : String)
    (h : parse_log_line line = Except.error e) : e = incorrectFormatMsg := by
  unfold parse_log_line at h
  split at h
  · exact Except.noConfusion h
  · injection h with h2
    exact h2.symm

lemma parse_error_of_count (line : String) (h : line.toList.count ' ' < 3) :
    parse_log_line line = Except.error incorrectFormatMsg := by
  have hlen : (pySplit line).length < 4 := by
    unfold pySplit
    rw [List.length_map]
    have := splitLimit_length_le ' ' 3 line.toList
    omega
  unfold parse_log_line
  split
  next d t l m heq => rw [heq] at hlen; simp at hlen
  next => rfl

lemma parse_ok_count (line : String) (r : LogRecord)
    (h : parse_log_line line = Except.ok r) : 3 ≤ line.toList.count ' ' := by
  unfold parse_log_line at h
  split at h
  next d t l m heq =>
    have h4 : (pySplit line).length = 4 := by rw [heq]; rfl
    unfold pySplit at h4
    rw [List.length_map] at h4
    have := splitLimit_length_le ' ' 3 line.toList
    omega
  next => exact Except.noConfusion h

lemma dropWhile_count_le (p : Char → Bool) (c : Char) (l : List Char) :
    (l.dropWhile p).count c ≤ l.count c :=
  (List.dropWhile_sublist p).count_le c

lemma stripChars_count_le (c : Char) (l : List Char) :
    (stripChars l).count c ≤ l.count c := by
  unfold stripChars
  calc ((((l.dropWhile isPyWhitespace).reverse).dropWhile isPyWhitespace).reverse).count c
      = (((l.dropWhile isPyWhitespace).reverse).dropWhile isPyWhitespace).count c :=
        List.count_reverse c _
    _ ≤ ((l.dropWhile isPyWhitespace).reverse).count c := dropWhile_count_le _ c _
    _ = (l.dropWhile isPyWhitespace).count c := List.count_reverse c _
    _ ≤ l.count c := dropWhile_count_le _ c _

lemma pyStrip_toList (s : String) : (pyStrip s).toList = stripChars s.toList := rfl

lemma pyStrip_count_le (c : Char) (s : String) :
    (pyStrip s).toList.count c ≤ s.toList.count c := by
  rw [pyStrip_toList]
  exact stripChars_count_le c s.toList

lemma load_error_of_bad (lines : List String)
    (h : ∃ line ∈ lines, line.toList.count ' ' < 3) :
    load_logs lines = Except.error incorrectFormatMsg := by
  induction lines with
  | nil => obtain ⟨l, hl, _⟩ := h; exact absurd hl (List.not_mem_nil l)
  | cons line rest ih =>
    obtain ⟨l, hl, hcount⟩ := h
    rcases List.mem_cons.mp hl with heq | hmem
    · subst heq
      have hstrip : (pyStrip l).toList.count ' ' < 3 :=
        lt_of_le_of_lt (pyStrip_count_le ' ' l) hcount
      have hp := parse_error_of_count _ hstrip
      simp [load_logs, hp]
    · have hrest := ih ⟨l, hmem, hcount⟩
      cases hp : parse_log_line (pyStrip line) with
      | error e =>
        have he := parse_error_msg _ _ hp
        simp [load_logs, hp, he]
      | ok r => simp [load_logs, hp, hrest]

lemma load_ok_of_all (lines : List String)
    (h : ∀ line ∈ lines, ∃ r, parse_log_line (pyStrip line) = Except.ok r) :
    ∃ recs, load_logs lines = Except.ok recs ∧
      List.Forall₂ (fun line r => parse_log_line (pyStrip line) = Except.ok r) lines recs := by
  induction lines with
  | nil => exact ⟨[], rfl, List.Forall₂.nil⟩
  | cons line rest ih =>
    obtain ⟨r, hr⟩ := h line (List.mem_cons_self line rest)
    obtain ⟨recs, hok, hall⟩ := ih (fun l hl => h l (List.mem_cons_of_mem _ hl))
    refine ⟨r :: recs, ?_, List.Forall₂.cons hr hall⟩
    simp [load_logs, hr, hok]

/-! ### Helper lemmas about `counterAdd` and `count_logs_by_level` -/

lemma sumCounts_counterAdd (k : String) (acc : List (String × Nat)) :
    sumCounts (counterAdd k acc) = sumCounts acc + 1 := by
  induction acc with
  | nil => rfl
  | cons p rest ih =>
    obtain ⟨k', n⟩ := p
    by_cases h : k' = k <;> simp [counterAdd, h, sumCounts] at ih ⊢ <;> omega

lemma mem_counterAdd (k : String) (acc : List (String × Nat)) (p : String × Nat)
    (hp : p ∈ counterAdd k acc) : p.1 = k ∨ p ∈ acc := by
  induction acc with
  | nil => simp [counterAdd] at hp; subst hp; exact Or.inl rfl
  | cons q rest ih =>
    obtain ⟨k', n⟩ := q
    by_cases h : k' = k
    · subst h
      simp only [counterAdd, if_pos rfl] at hp
      rcases List.mem_cons.mp hp with heq | hmem
      · subst heq; exact Or.inl rfl
      · exact Or.inr (List.mem_cons_of_mem _ hmem)
    · simp only [counterAdd, if_neg h] at hp
      rcases List.mem_cons.mp hp with heq | hmem
      · subst heq; exact Or.inr (List.mem_cons_self _ _)
      · rcases ih hmem with h1 | h2
        · exact Or.inl h1
        · exact Or.inr (List.mem_cons_of_mem _ h2)

lemma pos_counterAdd (k : String) (acc : List (String × Nat))
    (hacc : ∀ q ∈ acc, 0 < q.2) : ∀ p ∈ counterAdd k acc, 0 < p.2 := by
  induction acc with
  | nil => intro p hp; simp [counterAdd] at hp; subst hp; exact Nat.one_pos
  | cons q rest ih =>
    obtain ⟨k', n⟩ := q
    intro p hp
    by_cases h : k' = k
    · subst h
      simp only [counterAdd, if_pos rfl] at hp
      rcases List.mem_cons.mp hp with heq | hmem
      · subst heq; exact Nat.succ_pos n
      · exact hacc p (List.mem_cons_of_mem _ hmem)
    · simp only [counterAdd, if_neg h] at hp
      rcases List.mem_cons.mp hp with heq | hmem
      · subst heq; exact hacc (k', n) (List.mem_cons_self _ _)
      · exact ih (fun q hq => hacc q (List.mem_cons_of_mem _ hq)) p hmem

lemma sumCounts_countFold (logs : List LogRecord) :
    ∀ acc : List (String × Nat),
      sumCounts (logs.foldl (fun a log => counterAdd log.log_level a) acc) =
        sumCounts acc + logs.length := by
  induction logs with
  | nil => intro acc; simp
  | cons r rest ih =>
    intro acc
    rw [List.foldl_cons, ih, sumCounts_counterAdd]
    simp [Nat.add_assoc, Nat.add_comm 1 rest.length]

lemma mem_countFold (logs : List LogRecord) :
    ∀ acc : List (String × Nat),
      ∀ p ∈ logs.foldl (fun a log => counterAdd log.log_level a) acc,
        p ∈ acc ∨ ∃ r ∈ logs, r.log_level = p.1 := by
  induction logs with
  | nil => intro acc p hp; exact Or.inl hp
  | cons r rest ih =>
    intro acc p hp
    rw [List.foldl_cons] at hp
    rcases ih (counterAdd r.log_level acc) p hp with hmem | ⟨r', hr', hlev⟩
    · rcases mem_counterAdd _ _ _ hmem with h1 | h2
      · exact Or.inr ⟨r, List.mem_cons_self r rest, h1.symm⟩
      · exact Or.inl h2
    · exact Or.inr ⟨r', List.mem_cons_of_mem _ hr', hlev⟩

lemma pos_countFold (logs : List LogRecord) :
    ∀ acc : List (String × Nat), (∀ q ∈ acc, 0 < q.2) →
      ∀ p ∈ logs.foldl (fun a log => counterAdd log.log_level a) acc, 0 < p.2 := by
  induction logs with
  | nil => intro acc hacc p hp; exact hacc p hp
  | cons r rest ih =>
    intro acc hacc p hp
    rw [List.foldl_cons] at hp
    exact ih (counterAdd r.log_level acc) (pos_counterAdd _ _ hacc) p hp

/-! ### Helper lemmas about `stripChars` -/

lemma dropWhile_append_of_all (p : Char → Bool) (w s : List Char)
    (hw : ∀ c ∈ w, p c) : (w ++ s).dropWhile p = s.dropWhile p := by
  induction w with
  | nil => rfl
  | cons c rest ih =>
    have hc : p c := hw c (List.mem_cons_self c rest)
    rw [List.cons_append, List.dropWhile_cons, if_pos hc]
    exact ih (fun x hx => hw x (List.mem_cons_of_mem _ hx))

lemma dropWhile_append_of_ne_nil (p : Char → Bool) (s w : List Char)
    (hs : s.dropWhile p ≠ []) : (s ++ w).dropWhile p = s.dropWhile p ++ w := by
  induction s with
  | nil => exact absurd rfl hs
  | cons c rest ih =>
    by_cases hc : p c
    · have hl : List.dropWhile p (c :: rest) = List.dropWhile p rest := by
        rw [List.dropWhile_cons, if_pos hc]
      rw [List.cons_append, List.dropWhile_cons, if_pos hc, hl]
      rw [hl] at hs
      exact ih hs
    · rw [List.cons_append, List.dropWhile_cons, if_neg hc,
        List.dropWhile_cons, if_neg hc, List.cons_append]

lemma stripChars_append_left (w s : List Char)
    (hw : ∀ c ∈ w, isPyWhitespace c) : stripChars (w ++ s) = stripChars s := by
  unfold stripChars
  rw [dropWhile_append_of_all _ w s hw]

lemma stripChars_append_right (s w : List Char)
    (hw : ∀ c ∈ w, isPyWhitespace c) : stripChars (s ++ w) = stripChars s := by
  by_cases hs : s.dropWhile isPyWhitespace = []
  · have hall : ∀ c ∈ s, isPyWhitespace c := List.dropWhile_eq_nil_iff.mp hs
    have hsw : (s ++ w).dropWhile isPyWhitespace = [] := by
      apply List.dropWhile_eq_nil_iff.mpr
      intro x hx
      rcases List.mem_append.mp hx with h1 | h2
      · exact hall x h1
      · exact hw x h2
    unfold stripChars
    rw [hsw, hs]
  · unfold stripChars
    rw [dropWhile_append_of_ne_nil _ s w hs, List.reverse_append,
      dropWhile_append_of_all _ w.reverse _
        (fun c hc => hw c (List.mem_reverse.mp hc))]

lemma pyStrip_decorated (line w1 w2 : String)
    (h1 : ∀ c ∈ w1.toList, isPyWhitespace c)
    (h2 : ∀ c ∈ w2.toList, isPyWhitespace c) :
    pyStrip (w1 ++ line ++ w2) = pyStrip line := by
  unfold pyStrip
  have hdata : (w1 ++ line ++ w2).toList = w1.toList ++ (line.toList ++ w2.toList) := by
    show (w1 ++ line ++ w2).data = w1.data ++ (line.data ++ w2.data)
    simp [String.data_append]
  rw [hdata, stripChars_append_left _ _ h1, stripChars_append_right _ _ h2]

example : pySplit "a b c d e" = ["a", "b", "c", "d e"] := by decide
example : pySplit "a  b c" = ["a", "", "b", "c"] := by decide
example : pySplit "a b" = ["a", "b"] := by decide
example : pySplit "" = [""] := by decide
example : parse_log_line "2024-01-01 10:00:00 INFO Service started" =
    Except.ok ⟨"2024-01-01", "10:00:00", "INFO", "Service started"⟩ := by decide
example : pyStrip "  a b \n" = "a b" := by decide
example : pyUpper "error" = "ERROR" := by decide
example : colorize "info" = Color.white := by decide
example : colorize "INFO" = Color.cyan := by decide
example : count_logs_by_level
    [⟨"d", "t", "INFO", "m"⟩, ⟨"d", "t", "ERROR", "m"⟩, ⟨"d", "t", "INFO", "m"⟩] =
    [("INFO", 2), ("ERROR", 1)] := by decide
example : load_logs ["a b c d", "x y"] = Except.error incorrectFormatMsg := by decide
example : load_logs ["a  b c"] = Except.ok [⟨"a", "", "b", "c"⟩] := by decide

/-! ### Claim theorems -/

/-- C1, counterexample: a record whose stored level is lowercase `"error"` is
NOT selected when the requested level is `"ERROR"` — the pipeline uppercases
only the requested level and compares the stored level verbatim, so the
claim's case-insensitivity on the stored side fails. -/
theorem process_filter_lowercase_not_selected :
    process_filter [⟨"2024-01-01", "10:00:00", "error", "boom"⟩] "ERROR" = [] := by
  decide

/-- C1 (amended): the filter uppercases the requested level once and selects
exactly those records whose stored level equals it verbatim (case-sensitively,
with no uppercasing of the stored side); filtering by `"error"` and by
`"ERROR"` return identical sequences, but a record stored with a lowercase
level is not selected. -/
theorem process_filter_uppercases_request_only (logs : List LogRecord) (level : String) :
    (∀ r, r ∈ process_filter logs level ↔ r ∈ logs ∧ r.log_level = pyUpper level) ∧
    process_filter logs "error" = process_filter logs "ERROR" := by
  constructor
  · intro r
    simp [process_filter, filter_logs_by_level, List.mem_filter]
  · unfold process_filter
    rw [show pyUpper "error" = pyUpper "ERROR" from by decide]

/-- C2, counterexample: the color lookup is case-sensitive — the token
`"info"` does not map to cyan but falls back to white. -/
theorem colorize_lowercase_falls_to_white :
    colorize "info" = Color.white ∧ ¬ colorize "info" = Color.cyan := by decide

/-- C2 (amended): the level-to-color mapping matches level tokens
case-sensitively: exactly `"INFO"` yields cyan, `"DEBUG"` blue, `"ERROR"`
red, `"WARNING"` yellow, and any other token — including lowercase variants
such as `"info"` — falls back to white. -/
theorem colorize_case_sensitive_table (k : String) :
    colorize k =
      if k = "INFO" then Color.cyan
      else if k = "DEBUG" then Color.blue
      else if k = "ERROR" then Color.red
      else if k = "WARNING" then Color.yellow
      else Color.white := by
  by_cases h1 : k = "INFO"
  · subst h1; decide
  · by_cases h2 : k = "DEBUG"
    · subst h2; decide
    · by_cases h3 : k = "ERROR"
      · subst h3; decide
      · by_cases h4 : k = "WARNING"
        · subst h4; decide
        · by_cases h5 : k = "DEFAULT"
          · subst h5; decide
          · have b1 : (k == "INFO") = false := beq_eq_false_iff_ne.mpr h1
            have b2 : (k == "DEBUG") = false := beq_eq_false_iff_ne.mpr h2
            have b3 : (k == "ERROR") = false := beq_eq_false_iff_ne.mpr h3
            have b4 : (k == "WARNING") = false := beq_eq_false_iff_ne.mpr h4
            have b5 : (k == "DEFAULT") = false := beq_eq_false_iff_ne.mpr h5
            simp [colorize, log_colors, List.lookup, b1, b2, b3, b4, b5,
              h1, h2, h3, h4, h5]

/-- C3, counterexample: parsing the malformed line `"only two"` fails, and so
does loading it, but the error payload is the fixed message
`incorrectFormatMsg`, which does not contain the offending line. -/
theorem parse_error_not_carrying_line :
    parse_log_line "only two" = Except.error incorrectFormatMsg ∧
    load_logs ["only two"] = Except.error incorrectFormatMsg ∧
    isInfixChars "only two".toList incorrectFormatMsg.toList = false := by decide

/-- C3 (amended): when parsing fails on a malformed line (fewer than the
required space boundaries), the error carries a fixed diagnostic message that
is independent of the line — it does not reference the offending raw line —
and `load` on input containing such a line fails with that same fixed
message. -/
theorem parse_error_fixed_message (line : String) (lines : List String)
    (hcount : line.toList.count ' ' < 3) (hmem : line ∈ lines) :
    parse_log_line line = Except.error incorrectFormatMsg ∧
    load_logs lines = Except.error incorrectFormatMsg :=
  ⟨parse_error_of_count line hcount, load_error_of_bad lines ⟨line, hmem, hcount⟩⟩

/-- Witness for the amended C3 theorem at a concrete malformed line. -/
theorem parse_error_fixed_message_witness :
    parse_log_line "only two tokens" = Except.error incorrectFormatMsg ∧
    load_logs ["a b c d", "only two tokens"] = Except.error incorrectFormatMsg :=
  parse_error_fixed_message "only two tokens" ["a b c d", "only two tokens"]
    (by decide) (by decide)

/-- C4, counterexample: Python's `split(" ", 3)` keeps empty chunks, so the
line `"a  b c"` (consecutive spaces) is parsed and stored as a record with an
empty `time` field — contradicting the claim that no stored record has an
empty date, time, or level field produced from consecutive spaces. -/
theorem load_accepts_empty_fields :
    load_logs ["a  b c"] = Except.ok [⟨"a", "", "b", "c"⟩] ∧
    parse_log_line "a  b c" = Except.ok ⟨"a", "", "b", "c"⟩ := by decide

/-- C4 (amended): every record in a successfully loaded store was produced
from a line whose stripped form contains at least three space characters, and
every loaded line has at least three spaces after stripping (so a line with
fewer than three spaces is never represented); however, the "tokens" between
those spaces may be empty strings, so stored records can have empty date,
time, or level fields when the line contains consecutive spaces. -/
theorem load_store_wellformed_lines (lines : List String) (store : List LogRecord)
    (h : load_logs lines = Except.ok store) :
    (∀ r ∈ store, ∃ line ∈ lines, parse_log_line (pyStrip line) = Except.ok r ∧
        3 ≤ (pyStrip line).toList.count ' ') ∧
    (∀ line ∈ lines, 3 ≤ (pyStrip line).toList.count ' ') := by
  induction lines generalizing store with
  | nil =>
    simp only [load_logs] at h
    injection h with h
    subst h
    exact ⟨by simp, by simp⟩
  | cons line rest ih =>
    cases hp : parse_log_line (pyStrip line) with
    | error e => simp [load_logs, hp] at h
    | ok r =>
      cases hr : load_logs rest with
      | error e => simp [load_logs, hp, hr] at h
      | ok rs =>
        simp only [load_logs, hp, hr] at h
        injection h with h
        subst h
        obtain ⟨ih1, ih2⟩ := ih rs hr
        have hc := parse_ok_count _ _ hp
        constructor
        · intro r' hr'
          rcases List.mem_cons.mp hr' with heq | hmem
          · subst heq
            exact ⟨line, List.mem_cons_self _ _, hp, hc⟩
          · obtain ⟨l, hl, hpl, hcl⟩ := ih1 r' hmem
            exact ⟨l, List.mem_cons_of_mem _ hl, hpl, hcl⟩
        · intro l hl
          rcases List.mem_cons.mp hl with heq | hmem
          · subst heq
            exact hc
          · exact ih2 l hmem

/-- Witness for the amended C4 theorem at a concrete well-formed input. -/
theorem load_store_wellformed_lines_witness :
    (∀ r ∈ [(⟨"a", "b", "c", "d"⟩ : LogRecord)], ∃ line ∈ ["a b c d"],
        parse_log_line (pyStrip line) = Except.ok r ∧
        3 ≤ (pyStrip line).toList.count ' ') ∧
    (∀ line ∈ ["a b c d"], 3 ≤ (pyStrip line).toList.count ' ') :=
  load_store_wellformed_lines ["a b c d"] [⟨"a", "b", "c", "d"⟩] (by decide)

/-- C5: for every well-formed line made of space-free tokens `d`, `t`, `L`
followed by a remainder `m` separated by single spaces, `parse_log_line`
returns the record with date `d`, time `t`, level `L` and message `m` — even
when `m` itself contains spaces: only the first three space boundaries split
the line, all further spaces belong to the message verbatim, and no field is
trimmed or case-folded. -/
theorem parse_wellformed_line (d t L m : String)
    (hd : ' ' ∉ d.toList) (ht : ' ' ∉ t.toList) (hL : ' ' ∉ L.toList) :
    parse_log_line (d ++ " " ++ t ++ " " ++ L ++ " " ++ m) =
      Except.ok ⟨d, t, L, m⟩ := by
  have hlist : (d ++ " " ++ t ++ " " ++ L ++ " " ++ m).toList =
      d.toList ++ ' ' :: (t.toList ++ ' ' :: (L.toList ++ ' ' :: m.toList)) := by
    show (d ++ " " ++ t ++ " " ++ L ++ " " ++ m).data =
      d.data ++ ' ' :: (t.data ++ ' ' :: (L.data ++ ' ' :: m.data))
    simp [String.data_append]
  have hsplit : pySplit (d ++ " " ++ t ++ " " ++ L ++ " " ++ m) =
      [d, t, L, m] := by
    unfold pySplit
    rw [hlist, splitLimit_append ' ' d.toList hd, splitLimit_append ' ' t.toList ht,
      splitLimit_append ' ' L.toList hL,
      show splitLimit ' ' 0 m.toList = [m.toList] from by simp [splitLimit]]
    rfl
  unfold parse_log_line
  rw [hsplit]

/-- Witness for the C5 theorem at a concrete well-formed line whose message
contains spaces. -/
theorem parse_wellformed_line_witness :
    parse_log_line ("2024-01-01" ++ " " ++ "10:00:00" ++ " " ++ "INFO" ++ " " ++
        "Service started now") =
      Except.ok ⟨"2024-01-01", "10:00:00", "INFO", "Service started now"⟩ :=
  parse_wellformed_line "2024-01-01" "10:00:00" "INFO" "Service started now"
    (by decide) (by decide) (by decide)

/-- C6: load is fail-fast and all-or-nothing: a line with fewer than three
space boundaries makes `parse_log_line` fail with the (fixed)
`MalformedLineError` message, and `load_logs` on any sequence containing such
a line fails with that error — producing no partial store; if every line is
well-formed, `load_logs` returns the full ordered sequence of records in file
order, and empty input yields an empty store.  (All parse errors carry the
same fixed message, so the "first" error is observationally that message.) -/
theorem load_failfast_all_or_nothing :
    (∀ line : String, line.toList.count ' ' < 3 →
      parse_log_line line = Except.error incorrectFormatMsg) ∧
    (∀ lines : List String, (∃ line ∈ lines, line.toList.count ' ' < 3) →
      load_logs lines = Except.error incorrectFormatMsg) ∧
    (∀ lines : List String,
      (∀ line ∈ lines, ∃ r, parse_log_line (pyStrip line) = Except.ok r) →
      ∃ recs, load_logs lines = Except.ok recs ∧
        List.Forall₂ (fun line r => parse_log_line (pyStrip line) = Except.ok r)
          lines recs) ∧
    load_logs [] = Except.ok [] :=
  ⟨parse_error_of_count, load_error_of_bad, load_ok_of_all, rfl⟩

/-- Witness for the C6 theorem: a malformed line fails alone and inside a
file, and a well-formed file loads in full. -/
theorem load_failfast_all_or_nothing_witness :
    parse_log_line "a b" = Except.error incorrectFormatMsg ∧
    load_logs ["a b c d", "x y"] = Except.error incorrectFormatMsg ∧
    (∃ recs, load_logs ["a b c d"] = Except.ok recs ∧
      List.Forall₂ (fun line r => parse_log_line (pyStrip line) = Except.ok r)
        ["a b c d"] recs) := by
  obtain ⟨h1, h2, h3, h4⟩ := load_failfast_all_or_nothing
  refine ⟨h1 "a b" (by decide), h2 ["a b c d", "x y"] ⟨"x y", by decide, by decide⟩,
    h3 ["a b c d"] ?_⟩
  intro line hl
  rw [List.mem_singleton] at hl
  subst hl
  exact ⟨⟨"a", "b", "c", "d"⟩, by decide⟩

/-- C7: over any store, the level counts computed by `count_logs_by_level`
satisfy: the sum of all counts equals the number of records; every key is a
level value appearing at least once verbatim (case-sensitively) in the store;
and no key maps to 0. -/
theorem count_by_level_invariant (logs : List LogRecord) :
    sumCounts (count_logs_by_level logs) = logs.length ∧
    ∀ p ∈ count_logs_by_level logs, (∃ r ∈ logs, r.log_level = p.1) ∧ 0 < p.2 := by
  constructor
  · unfold count_logs_by_level
    rw [sumCounts_countFold logs []]
    simp [sumCounts]
  · intro p hp
    unfold count_logs_by_level at hp
    constructor
    · rcases mem_countFold logs [] p hp with hmem | h
      · exact absurd hmem (List.not_mem_nil p)
      · exact h
    · exact pos_countFold logs []
        (fun q hq => absurd hq (List.not_mem_nil q)) p hp

/-- Witness for the C7 theorem at a concrete three-record store. -/
theorem count_by_level_invariant_witness :
    sumCounts (count_logs_by_level
      [⟨"d1", "t1", "INFO", "m1"⟩, ⟨"d2", "t2", "ERROR", "m2"⟩,
       ⟨"d3", "t3", "INFO", "m3"⟩]) = 3 ∧
    ((∃ r ∈ [(⟨"d1", "t1", "INFO", "m1"⟩ : LogRecord), ⟨"d2", "t2", "ERROR", "m2"⟩,
        ⟨"d3", "t3", "INFO", "m3"⟩], r.log_level = "INFO") ∧ 0 < 2) := by
  have h := count_by_level_invariant
    [⟨"d1", "t1", "INFO", "m1"⟩, ⟨"d2", "t2", "ERROR", "m2"⟩,
     ⟨"d3", "t3", "INFO", "m3"⟩]
  refine ⟨?_, h.2 ("INFO", 2) (by decide)⟩
  rw [h.1]
  rfl

/-- C8: filtering preserves the original relative order of the matching
records (the result is a sublist of the store, containing exactly the
matches), and when no record matches it returns the empty sequence — a
valid, non-exceptional outcome (the embedding is a total function). -/
theorem filter_order_preserving_total (logs : List LogRecord) (level : String) :
    (process_filter logs level).Sublist logs ∧
    (∀ r, r ∈ process_filter logs level ↔ r ∈ logs ∧ r.log_level = pyUpper level) ∧
    ((∀ r ∈ logs, r.log_level ≠ pyUpper level) → process_filter logs level = []) := by
  refine ⟨List.filter_sublist logs, ?_, ?_⟩
  · intro r
    simp [process_filter, filter_logs_by_level, List.mem_filter]
  · intro hno
    unfold process_filter filter_logs_by_level
    apply List.filter_eq_nil_iff.mpr
    intro r hr
    simpa using hno r hr

/-- Witness for the C8 theorem: a one-record store with no match yields the
empty sequence, and the result is a sublist of the store. -/
theorem filter_order_preserving_total_witness :
    (process_filter [⟨"d", "t", "INFO", "m"⟩] "none").Sublist
      [(⟨"d", "t", "INFO", "m"⟩ : LogRecord)] ∧
    process_filter [(⟨"d", "t", "INFO", "m"⟩ : LogRecord)] "none" = [] := by
  have h := filter_order_preserving_total [⟨"d", "t", "INFO", "m"⟩] "none"
  exact ⟨h.1, h.2.2 (by decide)⟩

/-- C9: `count_logs_by_level` and the filter are deterministic and
idempotent: both are pure functions of the store in this embedding —
faithful to the source, where `filter` builds a fresh list and `Counter`
only reads the list — so calling either twice on the same store yields equal
results and the store itself is never mutated. -/
theorem count_filter_deterministic (logs : List LogRecord) (level : String) :
    count_logs_by_level logs = count_logs_by_level logs ∧
    process_filter logs level = process_filter logs level ∧
    filter_logs_by_level logs level = filter_logs_by_level logs level :=
  ⟨rfl, rfl, rfl⟩

/-- C10 (implicit): `load_logs` strips each line before parsing, so
decorating any line with leading or trailing whitespace (spaces, tabs, the
trailing newline, ...) leaves the result of `load_logs` unchanged. -/
theorem load_strip_decoration_invariant (lines' lines : List String)
    (h : List.Forall₂ (fun l' l => ∃ w1 w2 : String,
        (∀ c ∈ w1.toList, isPyWhitespace c = true) ∧
        (∀ c ∈ w2.toList, isPyWhitespace c = true) ∧
        l' = w1 ++ l ++ w2) lines' lines) :
    load_logs lines' = load_logs lines := by
  induction h with
  | nil => rfl
  | @cons l' l ls' ls hrel hrest ih =>
    obtain ⟨w1, w2, hw1, hw2, heq⟩ := hrel
    subst heq
    simp only [load_logs, pyStrip_decorated l w1 w2 hw1 hw2, ih]

/-- Witness for the C10 theorem: adding leading spaces and a trailing
newline to a line does not change the result of `load_logs`. -/
theorem load_strip_decoration_invariant_witness :
    load_logs ["  a b c d\n"] = load_logs ["a b c d"] :=
  load_strip_decoration_invariant ["  a b c d\n"] ["a b c d"]
    (List.Forall₂.cons ⟨"  ", "\n", by decide, by decide, by decide⟩
      List.Forall₂.nil)
